import Mathlib

/-!
Verification development for the ide4ai repository: a document/edit engine
with 1-based (optionally negative, reverse-counted) coordinates, a
whole-line edit policy layer, an LSP analyzer session, and a gym-style
workspace orchestrator (`PyWorkspace.step`).

The Python sources embedded here are:
  * `src/ai_ide/tool.py` — `adjust_line`, `adjust_char`,
    `convert_edit_range_to_range`, `construct_single_edit_operation`;
  * `ai_ide/python_ide/workspace.py` — `PyWorkspace.step` dispatch,
    the post-edit range-merge feedback loop, `PyWorkspace._initial_lsp`;
  * `ai_ide/ides.py` — `IDESingleton.__call__`;
  * `ide4ai/base.py` — the `IDE.terminal` property.

The text-buffer layer (`ai_ide/environment/workspace/model.py` /
`schema.py`) is not part of the sources at hand; where a definition is
reconstructed from the specification instead of the code, its doc comment
starts with `Modelled from the spec:`.
-/

set_option autoImplicit false

namespace Ide4ai

/-- Length of Python `s.splitlines()` restricted to `\n` separators, with the
Python convention that the empty string has zero lines and a trailing
newline does not open a new line.  This models the expression
`len(edit.text.splitlines()) if edit.text else 0` in `PyWorkspace.step`. -/
def pySplitlinesLen (s : String) : Nat :=
  if s.isEmpty then 0
  else (s.toList.count '\n') + (if s.toList.getLast? = some '\n' then 0 else 1)

/-- Position as in the workspace schema: 1-based `line` and `character`;
negative values count from the end and are resolved against a buffer. -/
structure Position where
  line : Int
  character : Int
deriving DecidableEq, Repr

/-- Range as in the workspace schema: a start and an end position. -/
structure Range where
  start_position : Position
  end_position : Position
deriving DecidableEq, Repr

/-- Modelled from the spec: the Document Buffer (`TextModel` in
`ai_ide/environment/workspace/model.py`, not among the sources at hand) as
an ordered sequence of lines, each stored without its trailing newline. -/
structure TextModel where
  lines : List String
deriving DecidableEq, Repr

/-- `TextModel.get_line_count`: number of lines of the buffer. -/
def TextModel.get_line_count (m : TextModel) : Nat := m.lines.length

/-- `TextModel.get_line_length` for a concrete 1-based line number.  The
callers embedded here only invoke it on line numbers already validated to
lie in `[1, get_line_count]`. -/
def TextModel.get_line_length (m : TextModel) (l : Int) : Nat :=
  (m.lines.getD (l - 1).toNat "").length

/-- Modelled from the spec: `validatePosition` returns the nearest
in-bounds position, clamping the line into `[1, lineCount]` and the
character into `[1, lineLength + 1]`. -/
def TextModel.validate_position (m : TextModel) (p : Position) : Position :=
  let lc : Int := m.get_line_count
  let l : Int := max 1 (min p.line lc)
  let len : Int := m.get_line_length l
  { line := l, character := max 1 (min p.character (len + 1)) }

/-- The distinct `raise IDEExecutionError(...)` sites of the embedded
code.  In the spec's error taxonomy, `zeroLine`, `lineOutOfRange`,
`zeroChar` and `charOutOfRange` realize `InvalidCoordinate`,
`granularity` realizes `InvalidEditGranularity`, and `invalidStartPos`,
`invalidEndPos` and `editValidation` realize `InvalidRange`. -/
inductive ErrSite where
  | zeroLine
  | lineOutOfRange
  | zeroChar
  | charOutOfRange
  | invalidStartPos
  | invalidEndPos
  | granularity
  | editValidation
  | invalidRange
deriving DecidableEq, Repr

/-- A raised `IDEExecutionError`, identified by its raise site. -/
inductive PyErr where
  | ideExec (site : ErrSite)
deriving DecidableEq, Repr

/-- `adjust_line` from `tool.py` (`convert_edit_range_to_range`): a zero
line is rejected, a magnitude above the line count is rejected, a positive
line is kept, and a negative line `sl` resolves to `lc + sl + 1`. -/
def adjust_line (sl : Int) (lc : Nat) : Except PyErr Int :=
  if sl = 0 then .error (.ideExec .zeroLine)
  else if sl.natAbs > lc then .error (.ideExec .lineOutOfRange)
  else .ok (if sl > 0 then sl else (lc : Int) + sl + 1)

/-- `adjust_char` from `tool.py` (`convert_edit_range_to_range`): a zero
character is rejected, a magnitude above `lineLength + 1` is rejected, a
positive character is kept, and a negative character `sc` resolves to
`lineLength + sc + 2` (so `-1` denotes the end-of-line slot
`lineLength + 1`).  `al` is the already-adjusted 1-based line number. -/
def adjust_char (m : TextModel) (sc : Int) (al : Int) : Except PyErr Int :=
  if sc = 0 then .error (.ideExec .zeroChar)
  else if sc.natAbs > m.get_line_length al + 1 then .error (.ideExec .charOutOfRange)
  else .ok (if sc > 0 then sc else (m.get_line_length al : Int) + sc + 2)

/-- The raw `{start_position: (line, char), end_position: (line, char)}`
dictionary accepted by the edit tools, before resolution. -/
structure RawRange where
  start_position : Int × Int
  end_position : Int × Int
deriving DecidableEq, Repr

/-- `convert_edit_range_to_range` from `tool.py`: adjust the start line,
the start character (against the adjusted start line), the end line and
the end character (against the adjusted end line), then reject either
position if it differs from its `validate_position` clamp. -/
def convert_edit_range_to_range (edit_range : RawRange) (m : TextModel) :
    Except PyErr Range := do
  let lc := m.get_line_count
  let start_line ← adjust_line edit_range.start_position.1 lc
  let star_character ← adjust_char m edit_range.start_position.2 start_line
  let end_line ← adjust_line edit_range.end_position.1 lc
  let end_character ← adjust_char m edit_range.end_position.2 end_line
  let start_position : Position := ⟨start_line, star_character⟩
  let valid_start_pos := m.validate_position start_position
  if start_position ≠ valid_start_pos then
    .error (.ideExec .invalidStartPos)
  else
    let end_position : Position := ⟨end_line, end_character⟩
    let valid_end_pos := m.validate_position end_position
    if end_position ≠ valid_end_pos then
      .error (.ideExec .invalidEndPos)
    else
      .ok ⟨valid_start_pos, valid_end_pos⟩

/-- A resolved single edit operation: a concrete range plus new text. -/
structure SingleEditOperation where
  range : Range
  text : String
deriving DecidableEq, Repr

/-- The raw edit dictionary accepted by `construct_single_edit_operation`:
an unresolved range plus the replacement text. -/
structure RawEditOp where
  range : RawRange
  new_text : String
deriving DecidableEq, Repr

/-- `construct_single_edit_operation` from `tool.py`: the whole-line
policy layer.  An edit whose start or end character is not `1` or `-1` is
rejected before any range conversion; otherwise the range is resolved via
`convert_edit_range_to_range`. -/
def construct_single_edit_operation (edit : RawEditOp) (m : TextModel) :
    Except PyErr SingleEditOperation :=
  if edit.range.start_position.2 ∉ ([1, -1] : List Int) ∨
      edit.range.end_position.2 ∉ ([1, -1] : List Int) then
    .error (.ideExec .granularity)
  else do
    let r ← convert_edit_range_to_range edit.range m
    .ok ⟨r, edit.new_text⟩

/-! ## The Document Buffer's edit engine

Modelled from the spec (`TextModel.apply_edits` lives in
`ai_ide/environment/workspace/model.py`, not among the sources at hand):
every edit's range is resolved against the pre-batch snapshot, an invalid
batch is rejected whole with `InvalidRange`, edits are applied in the
caller-specified order by textual splice, the version is incremented
exactly once per batch, and when requested the inverse edit list that
restores the pre-batch content is returned. -/

/-- Modelled from the spec: one edit of the flat buffer, with the range
already resolved to character offsets `[s, e)` and `t` the replacement. -/
structure Edit where
  s : Nat
  e : Nat
  t : List Char
deriving DecidableEq, Repr

/-- Splice a list of edits into the content suffix that starts at
absolute offset `k`: replace each span `[s, e)` (absolute offsets of the
pre-batch snapshot) with its replacement text, left to right. -/
def spliceApplyAux : Nat → List Char → List Edit → List Char
  | _, c, [] => c
  | k, c, ed :: es =>
      c.take (ed.s - k) ++ ed.t ++ spliceApplyAux ed.e (c.drop (ed.e - k)) es

/-- Modelled from the spec: apply the edits in caller order by textual
splice, each span resolved against the single pre-batch snapshot. -/
def spliceApply (c : List Char) (es : List Edit) : List Char :=
  spliceApplyAux 0 c es

/-- Inverse edits of the suffix starting at old offset `k`, mapped to new
offset `j`: each edit's replacement span in the new content, carrying the
overwritten old text. -/
def computeUndoAux : Nat → Nat → List Char → List Edit → List Edit
  | _, _, _, [] => []
  | k, j, c, ed :: es =>
      ⟨j + (ed.s - k), j + (ed.s - k) + ed.t.length,
        (c.drop (ed.s - k)).take (ed.e - ed.s)⟩ ::
      computeUndoAux ed.e (j + (ed.s - k) + ed.t.length) (c.drop (ed.e - k)) es

/-- Modelled from the spec: the inverse edit list of a batch, which
applied in the same call pattern restores the pre-batch content. -/
def computeUndo (c : List Char) (es : List Edit) : List Edit :=
  computeUndoAux 0 0 c es

/-- Validity of the suffix of a batch: spans start at or after the
already-consumed offset `k`, are well-ordered (`s ≤ e`), and end inside
the content (`e ≤ n`). -/
def validEditsAux : Nat → Nat → List Edit → Bool
  | _, _, [] => true
  | k, n, ed :: es =>
      decide (k ≤ ed.s) && decide (ed.s ≤ ed.e) && decide (ed.e ≤ n) &&
        validEditsAux ed.e n es

/-- Modelled from the spec: a batch is valid when its resolved spans are
in-bounds, well-ordered and pairwise non-overlapping. -/
def validEdits (n : Nat) (es : List Edit) : Bool :=
  validEditsAux 0 n es

/-- Modelled from the spec: a Document owns its content and a version that
is incremented once per applied edit batch. -/
structure PyDocument where
  content : List Char
  version : Nat
deriving DecidableEq, Repr

/-- Modelled from the spec: `applyEdits(edits, computeUndo)` — reject an
invalid batch whole with `InvalidRange`, otherwise splice, bump the
version once, and return the inverse edit list when requested. -/
def PyDocument.applyEdits (d : PyDocument) (edits : List Edit)
    (computeUndoFlag : Bool) : Except PyErr (PyDocument × Option (List Edit)) :=
  if validEdits d.content.length edits then
    .ok (⟨spliceApply d.content edits, d.version + 1⟩,
         if computeUndoFlag then some (computeUndo d.content edits) else none)
  else .error (.ideExec .invalidRange)

/-- Join buffer lines into flat content with `\n` separators. -/
def joinLines : List String → List Char
  | [] => []
  | [s] => s.toList
  | s :: rest => s.toList ++ '\n' :: joinLines rest

/-- Split flat content back into lines at each `\n`. -/
def splitLinesChar : List Char → List (List Char)
  | [] => [[]]
  | c :: cs =>
      match splitLinesChar cs, decide (c = '\n') with
      | rest, true => [] :: rest
      | [], false => [[c]]
      | r :: rs, false => (c :: r) :: rs

/-- Byte offset of a resolved 1-based position inside the flat content of
a buffer (each earlier line contributes its length plus one newline). -/
def posToOffset (m : TextModel) (p : Position) : Nat :=
  ((m.lines.take (p.line.toNat - 1)).map (fun s => s.length + 1)).sum +
    (p.character.toNat - 1)

/-- Modelled from the spec: the unrestricted buffer API
`TextModel.apply_edits` — positions are resolved to offsets with no
whole-line restriction, so arbitrary mid-line column ranges are accepted
as long as the resolved spans are valid. -/
def TextModel.apply_edits (m : TextModel) (edits : List SingleEditOperation) :
    Except PyErr TextModel :=
  let flat := joinLines m.lines
  let offs := edits.map (fun ed =>
    Edit.mk (posToOffset m ed.range.start_position)
      (posToOffset m ed.range.end_position) ed.text.toList)
  if validEdits flat.length offs then
    .ok ⟨(splitLinesChar (spliceApply flat offs)).map (fun l => String.mk l)⟩
  else .error (.ideExec .invalidRange)

/-! ## Range arithmetic and the post-edit merge loop

The `&` (intersects) and `|` (merge) operators of `Range` live in the
workspace schema module, which is not among the sources at hand; they are
modelled from the spec: *intersects* is true when the resolved spans
overlap or touch, *merge* is the smallest Range covering both.  Positions
compare lexicographically by line and then by character, where a negative
character (counting from the end of its line) sits after every concrete
positive column; `-1` is the end-of-line slot. -/

/-- Modelled from the spec: order key of a character coordinate.  A
positive column keeps its value; a negative column (reverse-counted from
the end of the line) is placed after every concrete positive column, with
`-1` (end of line) greatest. -/
def charKey (c : Int) : Int := if c > 0 then c else (2 ^ 32 : Int) + c

/-- Modelled from the spec: position order, lexicographic on the line and
then on the character key. -/
def posLE (a b : Position) : Bool :=
  decide (a.line < b.line) ||
    (decide (a.line = b.line) && decide (charKey a.character ≤ charKey b.character))

/-- The smaller of two positions under `posLE`. -/
def posMin (a b : Position) : Position := if posLE a b then a else b

/-- The larger of two positions under `posLE`. -/
def posMax (a b : Position) : Position := if posLE a b then b else a

/-- Modelled from the spec: `Range.__and__` — the resolved spans overlap
or touch. -/
def rangeIntersects (a b : Range) : Bool :=
  posLE a.start_position b.end_position && posLE b.start_position a.end_position

/-- Modelled from the spec: `Range.__or__` — the smallest range covering
both operands (used in-place by the merge loop's `last_range |= r`). -/
def rangeMerge (a b : Range) : Range :=
  ⟨posMin a.start_position b.start_position, posMax a.end_position b.end_position⟩

/-- `m` covers `r`: `m` starts no later than `r` and ends no earlier. -/
def rangeContainsB (m r : Range) : Bool :=
  posLE m.start_position r.start_position && posLE r.end_position m.end_position

/-- One iteration of the merge loop in `PyWorkspace.step` (`apply_edit`
branch), with the accumulated list kept in reverse order so that the
Python list's last element (`merged_ranges[-1]`) is the head: an empty
accumulator starts with `r`; otherwise `r` is merged into the last
accumulated range when the two intersect, else appended. -/
def mergeStepRev (acc : List Range) (r : Range) : List Range :=
  match acc with
  | [] => [r]
  | lastR :: rest =>
      if rangeIntersects lastR r then rangeMerge lastR r :: rest else r :: lastR :: rest

/-- The merge procedure of `PyWorkspace.step`: stable-sort the ranges by
their start line (`content_ranges.sort(key=lambda x: x.start_position.line)`)
and scan once with the merge loop. -/
def merged_ranges (rs : List Range) : List Range :=
  ((rs.insertionSort fun a b => a.start_position.line ≤ b.start_position.line).foldl
      mergeStepRev []).reverse

/-- The per-edit feedback range built in the `apply_edit` branch of
`PyWorkspace.step`: 3 lines of context before the edit's start line, and
3 lines of context after its end line shifted by the line count of the
inserted text; characters pinned to column 1. -/
def expandEditRange (ed : SingleEditOperation) : Range :=
  let length_of_new_text : Int := pySplitlinesLen ed.text
  ⟨⟨max 1 (ed.range.start_position.line - 3), 1⟩,
   ⟨ed.range.end_position.line + length_of_new_text + 3, 1⟩⟩

/-- The `content_ranges` list of the `apply_edit` branch. -/
def content_ranges_of (edits : List SingleEditOperation) : List Range :=
  edits.map expandEditRange

/-- The merged feedback ranges of an edit batch. -/
def merged_ranges_of (edits : List SingleEditOperation) : List Range :=
  merged_ranges (content_ranges_of edits)

/-- The buffer slices actually placed in the observation: the source reads
`if merged_ranges: content_after_edit.append(self.read_file(...,
code_range=merged_ranges[-1]))`, so only the last merged range is sliced. -/
def feedback_slices (edits : List SingleEditOperation) : List Range :=
  ((merged_ranges_of edits).getLast?).toList

/-! ## The `PyWorkspace.step` dispatch -/

/-- The workspace action names `PyWorkspace.step` handles with a
`try`/`except` branch (the unimplemented names raise
`NotImplementedError` without returning and are not listed). -/
inductive WsAction where
  | open_file
  | apply_edit
  | save_file
  | close_file
  | read_file
  | get_file_symbols
  | find_in_file
  | replace_in_file
  | create_file
  | insert_cursor
  | delete_cursor
  | clear_cursors
  | inspect_grammar_err
deriving DecidableEq, Repr

/-- Outcome of the workspace/buffer call a `step` branch wraps:
a successful observation, `None` from `create_file` (file already
exists), a raised `IDEExecutionError`, or any other raised exception. -/
inductive OpOutcome where
  | ok (obs : String)
  | okNone
  | ideExec (site : ErrSite)
  | exc (msg : String)
deriving DecidableEq, Repr

/-- The `(obs, reward, done, success)` quadruple returned by `step` (the
final empty info dict is omitted). -/
structure StepResult where
  obs : String
  reward : Int
  done : Bool
  success : Bool
deriving DecidableEq, Repr

/-- Rendering of a caught exception into the observation (`str(e)`). -/
def errObs (site : ErrSite) : String := s!"IDEExecutionError at {reprStr site}"

/-- The branch bodies of `PyWorkspace.step`.  Every branch wraps its
operation in `try`/`except Exception` and returns `(obs, 100, True, True)`
on success and `(str(e), 0, True, False)` on a caught exception.  The
`apply_edit` branch alone re-raises `IDEExecutionError`
(`except IDEExecutionError as e: raise e`) before its generic handler,
and `create_file` maps a `None` result to `("文件已存在", 0, True, False)`.
`create_file` is the only action whose operation can return `None`. -/
def step_dispatch (a : WsAction) (outcome : OpOutcome) : Except PyErr StepResult :=
  match a, outcome with
  | .apply_edit, .ideExec site => .error (.ideExec site)
  | _, .ideExec site => .ok ⟨errObs site, 0, true, false⟩
  | .create_file, .okNone => .ok ⟨"文件已存在", 0, true, false⟩
  | _, .okNone => .ok ⟨"", 100, true, true⟩
  | _, .ok obs => .ok ⟨obs, 100, true, true⟩
  | _, .exc m => .ok ⟨m, 0, true, false⟩

/-- An entry of `action_args["edits"]` as a raw dictionary:
`SingleEditOperation.model_validate` requires the `range` and `text`
fields to be present. -/
structure RawDictEdit where
  range : Option Range
  text : Option String
deriving DecidableEq, Repr

/-- `PyWorkspace.apply_edit`: validate every edit dictionary (a pydantic
`ValidationError` is re-raised as `IDEExecutionError`), then apply the
batch through the buffer; a buffer rejection is a generic exception for
the `step` handler. -/
def ws_apply_edit (m : TextModel) (edits : List RawDictEdit) : OpOutcome :=
  match edits.mapM (fun d =>
      match d.range, d.text with
      | some r, some t => some (SingleEditOperation.mk r t)
      | _, _ => none) with
  | none => .ideExec .editValidation
  | some ops =>
      match m.apply_edits ops with
      | .ok _ => .ok "编辑成功"
      | .error _ => .exc "InvalidRange"

/-- The `apply_edit` branch of `PyWorkspace.step` applied to concrete
arguments: dispatch of the workspace call's outcome. -/
def step_apply_edit (m : TextModel) (edits : List RawDictEdit) :
    Except PyErr StepResult :=
  step_dispatch .apply_edit (ws_apply_edit m edits)

/-! ## The analyzer handshake (`PyWorkspace._initial_lsp`) -/

/-- Modelled from the spec: the wire bytes of the `initialize` response as
`_initial_lsp` sees them — either bytes `json.loads` cannot parse, or a
well-formed `LSPResponseMessage` reply with an optional `error` field. -/
inductive LSPRaw where
  | malformed (raw : String)
  | reply (error : Option String) (result : String)
deriving DecidableEq, Repr

/-- The two fatal handshake failures raised by `_initial_lsp`. -/
inductive HandshakeErr where
  | parseFailure (raw : String)
  | errorField (e : String)
deriving DecidableEq, Repr

/-- `PyWorkspace._initial_lsp` after the `initialize` request: when a
response arrived (`if res:`), a parse failure raises, a non-empty error
field raises, and otherwise the `initialized` notification is sent.  The
returned list is the list of notifications sent. -/
def initial_lsp (res : Option LSPRaw) : Except HandshakeErr (List String) :=
  match res with
  | none => .ok []
  | some (.malformed raw) => .error (.parseFailure raw)
  | some (.reply (some e) _) => .error (.errorField e)
  | some (.reply none _) => .ok ["initialized"]

/-! ## The process-wide IDE singleton registry (`IDESingleton.__call__`) -/

/-- The `IDESingleton._instances` registry: keys mapped to the identity of
the constructed instance. -/
structure SingletonRegistry where
  entries : List (String × Nat)
deriving DecidableEq, Repr

/-- Dictionary lookup in the registry. -/
def registry_lookup (reg : SingletonRegistry) (key : String) : Option Nat :=
  (reg.entries.find? fun kv => kv.1 == key).map fun kv => kv.2

/-- `IDESingleton.__call__`: the key is the class name concatenated with
`kwargs.get("project_name", "")`; if the key is absent the instance is
constructed (here: `freshId`) and registered, otherwise the registered
instance is returned.  The lock makes the check-then-create sequence
atomic, which is what this sequential function models; the redundant
outer pre-check of the double-checked locking collapses. -/
def ide_singleton_call (reg : SingletonRegistry) (clsName projectName : String)
    (freshId : Nat) : SingletonRegistry × Nat :=
  let key := clsName ++ projectName
  match registry_lookup reg key with
  | some i => (reg, i)
  | none => (⟨reg.entries ++ [(key, freshId)]⟩, freshId)

/-! ## The `IDE.terminal` property (`ide4ai/base.py`) -/

/-- Python truthiness of an `int | None` value: `None` and `0` are falsy. -/
def pyTruthyOptInt : Option Int → Bool
  | none => false
  | some i => decide (i ≠ 0)

/-- The terminal-related state of an `IDE` instance: the list of terminal
identities and `active_terminal_index`. -/
structure IDEState where
  terminals : List Nat
  active_terminal_index : Option Int
deriving DecidableEq, Repr

/-- The `IDE.terminal` property: `if self.active_terminal_index:` — when
the index is truthy the stored terminal is returned, otherwise (index
`None` or `0`) a new terminal is constructed, appended, and activated at
`len(self.terminals) - 1`. -/
def terminal_access (s : IDEState) (fresh : Nat) : Nat × IDEState :=
  if pyTruthyOptInt s.active_terminal_index then
    (s.terminals.getD (s.active_terminal_index.getD 0).toNat 0, s)
  else
    let ts := s.terminals ++ [fresh]
    (fresh, { terminals := ts, active_terminal_index := some ((ts.length : Int) - 1) })

/-! ## Theorems -/

/-- **C4**: resolving a position against a document, `line = -1` resolves
to the line count (so `5` for a 5-line document), `character = -1`
resolves to `lineLength + 1` (the end-of-line slot), a magnitude beyond
the axis bound (line count for lines, `lineLength + 1` for characters)
fails, and `0` on either axis always fails with the `InvalidCoordinate`
raise sites. -/
theorem claim_c4_negative_indexing (m : TextModel) :
    (∀ lc : Nat, 1 ≤ lc → adjust_line (-1) lc = .ok lc) ∧
    adjust_line (-1) 5 = .ok 5 ∧
    (∀ al : Int, adjust_char m (-1) al = .ok ((m.get_line_length al : Int) + 1)) ∧
    (∀ (sl : Int) (lc : Nat), sl.natAbs > lc →
      adjust_line sl lc = .error (.ideExec .lineOutOfRange)) ∧
    (∀ (sc : Int) (al : Int), sc.natAbs > m.get_line_length al + 1 →
      adjust_char m sc al = .error (.ideExec .charOutOfRange)) ∧
    (∀ lc : Nat, adjust_line 0 lc = .error (.ideExec .zeroLine)) ∧
    (∀ al : Int, adjust_char m 0 al = .error (.ideExec .zeroChar)) := by
  refine ⟨?_, by rfl, ?_, ?_, ?_, ?_, ?_⟩
  · intro lc hlc
    unfold adjust_line
    rw [if_neg (by omega),
      if_neg (by rw [show ((-1 : Int).natAbs) = 1 from rfl]; omega),
      if_neg (by omega)]
    congr 1
    omega
  · intro al
    unfold adjust_char
    rw [if_neg (by omega),
      if_neg (by rw [show ((-1 : Int).natAbs) = 1 from rfl]; omega),
      if_neg (by omega)]
    congr 1
    omega
  · intro sl lc h
    unfold adjust_line
    rw [if_neg (by intro h0; subst h0; simp at h), if_pos h]
  · intro sc al h
    unfold adjust_char
    rw [if_neg (by intro h0; subst h0; simp at h), if_pos h]
  · intro lc; rfl
  · intro al; rfl

/-- Witness for C4 at concrete inputs: a 5-line document, the line bound,
and a 3-character line. -/
theorem claim_c4_negative_indexing_witness :
    adjust_line (-1) 5 = .ok 5 ∧
    adjust_char ⟨["abc"]⟩ (-1) 1 = .ok 4 ∧
    adjust_line 7 5 = .error (.ideExec .lineOutOfRange) ∧
    adjust_char ⟨["abc"]⟩ 6 1 = .error (.ideExec .charOutOfRange) ∧
    adjust_line 0 5 = .error (.ideExec .zeroLine) ∧
    adjust_char ⟨["abc"]⟩ 0 1 = .error (.ideExec .zeroChar) := by
  obtain ⟨h1, _, h3, h4, h5, h6, h7⟩ := claim_c4_negative_indexing ⟨["abc"]⟩
  exact ⟨h1 5 (by omega), h3 1, h4 7 5 (by decide), h5 6 1 (by decide), h6 5, h7 1⟩

/-- **C3**: under the restricted whole-line policy layer
(`construct_single_edit_operation`), every edit whose start or end
character offset is not `1` or `-1` is rejected with the
`InvalidEditGranularity` error before any range conversion reaches the
buffer, while the unrestricted buffer API accepts a mid-line column range
(characters `2`..`3` of line 1). -/
theorem claim_c3_whole_line_policy :
    (∀ (e : RawEditOp) (m : TextModel),
      (e.range.start_position.2 ∉ ([1, -1] : List Int) ∨
        e.range.end_position.2 ∉ ([1, -1] : List Int)) →
      construct_single_edit_operation e m = .error (.ideExec .granularity)) ∧
    TextModel.apply_edits ⟨["abcd", "efgh"]⟩
      [⟨⟨⟨1, 2⟩, ⟨1, 3⟩⟩, "XY"⟩] = .ok ⟨["aXYcd", "efgh"]⟩ := by
  constructor
  · intro e m h
    unfold construct_single_edit_operation
    rw [if_pos h]
  · rfl

/-- Witness for C3: an edit with `start.character = 2` is rejected by the
policy layer on a 2-line model. -/
theorem claim_c3_whole_line_policy_witness :
    construct_single_edit_operation ⟨⟨(1, 2), (1, 1)⟩, "t"⟩ ⟨["abcd", "efgh"]⟩ =
      .error (.ideExec .granularity) :=
  claim_c3_whole_line_policy.1 ⟨⟨(1, 2), (1, 1)⟩, "t"⟩ ⟨["abcd", "efgh"]⟩ (by decide)

/-- **C7**: in `_initial_lsp`, a JSON parse failure and a non-empty error
field in the `initialize` response are both fatal (raised, so Workspace
construction fails), and the `initialized` notification is sent exactly
when the response is a well-formed reply with no error field. -/
theorem claim_c7_handshake_fatal :
    (∀ raw, initial_lsp (some (.malformed raw)) = .error (.parseFailure raw)) ∧
    (∀ e r, initial_lsp (some (.reply (some e) r)) = .error (.errorField e)) ∧
    (∀ res : Option LSPRaw,
      (∃ sent, initial_lsp res = .ok sent ∧ "initialized" ∈ sent) ↔
        ∃ r, res = some (.reply none r)) := by
  refine ⟨fun _ => rfl, fun _ _ => rfl, ?_⟩
  intro res
  constructor
  · intro ⟨sent, hok, hmem⟩
    match res with
    | none => simp [initial_lsp] at hok; subst hok; simp at hmem
    | some (.malformed raw) => simp [initial_lsp] at hok
    | some (.reply (some e) r) => simp [initial_lsp] at hok
    | some (.reply none r) => exact ⟨r, rfl⟩
  · intro ⟨r, hres⟩
    subst hres
    refine ⟨["initialized"], rfl, ?_⟩
    simp

/-- Witness for C7: a concrete error-free reply leads to the
`initialized` notification being sent. -/
theorem claim_c7_handshake_fatal_witness :
    ∃ sent, initial_lsp (some (.reply none "caps")) = .ok sent ∧
      "initialized" ∈ sent :=
  (claim_c7_handshake_fatal.2.2 (some (.reply none "caps"))).mpr ⟨"caps", rfl⟩

/-- **C8**: two constructions of the IDE singleton naming the same
project (same class name and same `project_name` key) return the same
underlying instance, and re-use of the existing instance is idempotent:
the second call leaves the registry unchanged.  The check-then-create
sequence runs under the class-level lock, which is what licenses this
sequential model of `IDESingleton.__call__`. -/
theorem claim_c8_singleton_idempotent (reg : SingletonRegistry)
    (cls p : String) (f1 f2 : Nat) :
    (ide_singleton_call (ide_singleton_call reg cls p f1).1 cls p f2).2 =
      (ide_singleton_call reg cls p f1).2 ∧
    (ide_singleton_call (ide_singleton_call reg cls p f1).1 cls p f2).1 =
      (ide_singleton_call reg cls p f1).1 := by
  cases h : registry_lookup reg (cls ++ p) with
  | some i => simp [ide_singleton_call, h]
  | none =>
    have hfind : reg.entries.find? (fun kv => kv.1 == cls ++ p) = none := by
      unfold registry_lookup at h
      exact Option.map_eq_none'.mp h
    have h2 : registry_lookup ⟨reg.entries ++ [(cls ++ p, f1)]⟩ (cls ++ p) = some f1 := by
      unfold registry_lookup
      rw [List.find?_append, hfind]
      simp
    simp [ide_singleton_call, h, h2]

/-- **C9**: whenever `active_terminal_index` is `0` (or `None`), every
access to the `terminal` property constructs a new terminal, appends it
to the terminal list and activates the new index, instead of returning
the existing terminal at index 0; the stored terminal is returned without
creating a new one only when the index is nonzero. -/
theorem claim_c9_terminal_index_zero (s : IDEState) (fresh : Nat) :
    (s.active_terminal_index = none ∨ s.active_terminal_index = some 0 →
      (terminal_access s fresh).1 = fresh ∧
      (terminal_access s fresh).2.terminals = s.terminals ++ [fresh] ∧
      (terminal_access s fresh).2.active_terminal_index =
        some (s.terminals.length : Int)) ∧
    (∀ i : Int, s.active_terminal_index = some i → i ≠ 0 →
      (terminal_access s fresh).1 = s.terminals.getD i.toNat 0 ∧
      (terminal_access s fresh).2 = s) := by
  constructor
  · intro h
    have hfalse : pyTruthyOptInt s.active_terminal_index = false := by
      rcases h with h | h <;> simp [h, pyTruthyOptInt]
    unfold terminal_access
    rw [hfalse]
    simp only [Bool.false_eq_true, if_false]
    refine ⟨trivial, trivial, ?_⟩
    simp only [List.length_append, List.length_cons, List.length_nil,
      Option.some.injEq]
    omega
  · intro i hi hnz
    have htrue : pyTruthyOptInt s.active_terminal_index = true := by
      simp [hi, pyTruthyOptInt, hnz]
    simp only [terminal_access, htrue, if_true]
    simp [hi]

/-- Witness for C9: with one existing terminal (id 7) and active index 0,
access creates terminal 9 instead of returning terminal 7; with active
index 1 of a two-terminal list, terminal 8 is returned unchanged. -/
theorem claim_c9_terminal_index_zero_witness :
    (terminal_access ⟨[7], some 0⟩ 9).1 = 9 ∧
    (terminal_access ⟨[7], some 0⟩ 9).2.terminals = [7, 9] ∧
    (terminal_access ⟨[7], some 0⟩ 9).2.active_terminal_index = some 1 ∧
    (terminal_access ⟨[7, 8], some 1⟩ 9).1 = 8 ∧
    (terminal_access ⟨[7, 8], some 1⟩ 9).2 = ⟨[7, 8], some 1⟩ := by
  obtain ⟨h1, h2, h3⟩ := (claim_c9_terminal_index_zero ⟨[7], some 0⟩ 9).1 (Or.inr rfl)
  obtain ⟨h4, h5⟩ :=
    (claim_c9_terminal_index_zero ⟨[7, 8], some 1⟩ 9).2 1 rfl (by omega)
  exact ⟨h1, h2, h3, h4, h5⟩

/-- **C10**: every workspace action handled by `PyWorkspace.step` that
returns (rather than raises) returns `done = True`, with reward exactly
`100` on success and exactly `0` on failure; no handled action returns
`done = False`. -/
theorem claim_c10_step_flags (a : WsAction) (outcome : OpOutcome)
    (r : StepResult) (h : step_dispatch a outcome = .ok r) :
    r.done = true ∧ r.reward = (if r.success then 100 else 0) := by
  cases a <;> cases outcome <;>
    simp only [step_dispatch, Except.ok.injEq] at h <;>
    first
      | (subst h; simp)
      | cases h

/-- Witness for C10 at a concrete handled action. -/
theorem claim_c10_step_flags_witness :
    (step_dispatch .open_file (.ok "content")).isOk ∧
    ((step_dispatch .open_file (.ok "content")).toOption.map
        (fun r => (r.done, r.reward, r.success)) = some (true, 100, true)) ∧
    ((⟨"content", 100, true, true⟩ : StepResult).done = true ∧
      (⟨"content", 100, true, true⟩ : StepResult).reward =
        (if (⟨"content", 100, true, true⟩ : StepResult).success then 100 else 0)) := by
  refine ⟨by decide, by decide, ?_⟩
  exact claim_c10_step_flags .open_file (.ok "content") ⟨"content", 100, true, true⟩ rfl

/-- **C2 counterexample**: a dispatched `apply_edit` workspace action
whose `edits` argument is malformed (a dictionary failing
`SingleEditOperation.model_validate`) makes `PyWorkspace.step` re-raise
the resulting `IDEExecutionError` out of the dispatch instead of
returning a failed Result — refuting the claim that such errors are
always translated into a failed Result and never raised to the caller. -/
theorem claim_c2_cex :
    step_apply_edit ⟨["a"]⟩ [⟨none, none⟩] =
      .error (.ideExec .editValidation) := rfl

/-- **C2 (amended)**: in `PyWorkspace.step`, an `IDEExecutionError`
arising while dispatching `apply_edit` (for example from edit-argument
validation) propagates out of `step` to the caller
(`except IDEExecutionError as e: raise e`); every other exception in a
step branch, and an `IDEExecutionError` in every branch other than
`apply_edit`, is caught and translated into a failed Result with
`done = True` and reward `0` rather than crashing. -/
theorem claim_c2_raise_policy :
    (∀ (m : TextModel) (edits : List RawDictEdit) (site : ErrSite),
      ws_apply_edit m edits = .ideExec site →
      step_apply_edit m edits = .error (.ideExec site)) ∧
    (∀ (a : WsAction) (msg : String),
      step_dispatch a (.exc msg) = .ok ⟨msg, 0, true, false⟩) ∧
    (∀ (a : WsAction) (site : ErrSite), a ≠ .apply_edit →
      step_dispatch a (.ideExec site) = .ok ⟨errObs site, 0, true, false⟩) := by
  refine ⟨?_, ?_, ?_⟩
  · intro m edits site h
    unfold step_apply_edit
    rw [h]
    rfl
  · intro a msg; cases a <;> rfl
  · intro a site hne; cases a <;> first | rfl | exact absurd rfl hne

/-- Witness for C2 (amended) at concrete inputs. -/
theorem claim_c2_raise_policy_witness :
    step_apply_edit ⟨["xy"]⟩ [⟨some ⟨⟨1, 1⟩, ⟨1, 1⟩⟩, none⟩] =
      .error (.ideExec .editValidation) ∧
    step_dispatch .save_file (.exc "boom") = .ok ⟨"boom", 0, true, false⟩ ∧
    step_dispatch .open_file (.ideExec .granularity) =
      .ok ⟨errObs .granularity, 0, true, false⟩ := by
  refine ⟨?_, claim_c2_raise_policy.2.1 .save_file "boom",
    claim_c2_raise_policy.2.2 .open_file .granularity (by simp)⟩
  exact claim_c2_raise_policy.1 ⟨["xy"]⟩ [⟨some ⟨⟨1, 1⟩, ⟨1, 1⟩⟩, none⟩]
    .editValidation rfl

theorem posLE_refl (a : Position) : posLE a a = true := by
  simp [posLE]

theorem posLE_total (a b : Position) : posLE a b = true ∨ posLE b a = true := by
  simp only [posLE, Bool.or_eq_true, Bool.and_eq_true, decide_eq_true_eq]
  rcases lt_trichotomy a.line b.line with h | h | h
  · exact Or.inl (Or.inl h)
  · rcases le_total (charKey a.character) (charKey b.character) with hc | hc
    · exact Or.inl (Or.inr ⟨h, hc⟩)
    · exact Or.inr (Or.inr ⟨h.symm, hc⟩)
  · exact Or.inr (Or.inl h)

theorem posLE_trans {a b c : Position} (h1 : posLE a b = true)
    (h2 : posLE b c = true) : posLE a c = true := by
  simp only [posLE, Bool.or_eq_true, Bool.and_eq_true, decide_eq_true_eq]
    at h1 h2 ⊢
  rcases h1 with h1 | ⟨h1e, h1c⟩ <;> rcases h2 with h2 | ⟨h2e, h2c⟩
  · exact Or.inl (h1.trans h2)
  · exact Or.inl (h2e ▸ h1)
  · exact Or.inl (lt_of_le_of_lt (le_of_eq h1e) h2)
  · exact Or.inr ⟨h1e.trans h2e, h1c.trans h2c⟩

theorem posLE_posMin_left (a b : Position) : posLE (posMin a b) a = true := by
  unfold posMin
  split
  · exact posLE_refl a
  · next h =>
    rcases posLE_total a b with h1 | h1
    · exact absurd h1 h
    · exact h1

theorem posLE_posMin_right (a b : Position) : posLE (posMin a b) b = true := by
  unfold posMin
  split
  · next h => exact h
  · exact posLE_refl b

theorem posLE_posMax_left (a b : Position) : posLE a (posMax a b) = true := by
  unfold posMax
  split
  · next h => exact h
  · exact posLE_refl a

theorem posLE_posMax_right (a b : Position) : posLE b (posMax a b) = true := by
  unfold posMax
  split
  · exact posLE_refl b
  · next h =>
    rcases posLE_total a b with h1 | h1
    · exact absurd h1 h
    · exact h1

theorem rangeContainsB_refl (r : Range) : rangeContainsB r r = true := by
  simp [rangeContainsB, posLE_refl]

theorem rangeContainsB_trans {a b c : Range} (h1 : rangeContainsB a b = true)
    (h2 : rangeContainsB b c = true) : rangeContainsB a c = true := by
  simp only [rangeContainsB, Bool.and_eq_true] at h1 h2 ⊢
  exact ⟨posLE_trans h1.1 h2.1, posLE_trans h2.2 h1.2⟩

theorem rangeMerge_contains_left (a b : Range) :
    rangeContainsB (rangeMerge a b) a = true := by
  simp only [rangeMerge, rangeContainsB, Bool.and_eq_true]
  exact ⟨posLE_posMin_left _ _, posLE_posMax_left _ _⟩

theorem rangeMerge_contains_right (a b : Range) :
    rangeContainsB (rangeMerge a b) b = true := by
  simp only [rangeMerge, rangeContainsB, Bool.and_eq_true]
  exact ⟨posLE_posMin_right _ _, posLE_posMax_right _ _⟩

theorem mergeStepRev_mono {acc : List Range} {x : Range} (r : Range)
    (h : ∃ mr ∈ acc, rangeContainsB mr x = true) :
    ∃ mr ∈ mergeStepRev acc r, rangeContainsB mr x = true := by
  cases acc with
  | nil =>
    obtain ⟨mr, hmem, _⟩ := h
    simp at hmem
  | cons lastR rest =>
    obtain ⟨mr, hmem, hc⟩ := h
    cases hint : rangeIntersects lastR r with
    | true =>
      have hstep : mergeStepRev (lastR :: rest) r = rangeMerge lastR r :: rest := by
        simp [mergeStepRev, hint]
      rcases List.mem_cons.mp hmem with heq | hmem2
      · refine ⟨rangeMerge lastR r, ?_,
          rangeContainsB_trans (rangeMerge_contains_left _ _) (heq ▸ hc)⟩
        rw [hstep]
        exact List.mem_cons_self _ _
      · refine ⟨mr, ?_, hc⟩
        rw [hstep]
        exact List.mem_cons_of_mem _ hmem2
    | false =>
      have hstep : mergeStepRev (lastR :: rest) r = r :: lastR :: rest := by
        simp [mergeStepRev, hint]
      refine ⟨mr, ?_, hc⟩
      rw [hstep]
      exact List.mem_cons_of_mem _ hmem

theorem mergeStepRev_new (acc : List Range) (r : Range) :
    ∃ mr ∈ mergeStepRev acc r, rangeContainsB mr r = true := by
  cases acc with
  | nil => exact ⟨r, by simp [mergeStepRev], rangeContainsB_refl r⟩
  | cons lastR rest =>
    cases hint : rangeIntersects lastR r with
    | true =>
      have hstep : mergeStepRev (lastR :: rest) r = rangeMerge lastR r :: rest := by
        simp [mergeStepRev, hint]
      refine ⟨rangeMerge lastR r, ?_, rangeMerge_contains_right _ _⟩
      rw [hstep]
      exact List.mem_cons_self _ _
    | false =>
      have hstep : mergeStepRev (lastR :: rest) r = r :: lastR :: rest := by
        simp [mergeStepRev, hint]
      refine ⟨r, ?_, rangeContainsB_refl r⟩
      rw [hstep]
      exact List.mem_cons_self _ _

theorem foldl_mergeStepRev_mono (rs : List Range) {acc : List Range}
    {x : Range} (h : ∃ mr ∈ acc, rangeContainsB mr x = true) :
    ∃ mr ∈ rs.foldl mergeStepRev acc, rangeContainsB mr x = true := by
  induction rs generalizing acc with
  | nil => simpa using h
  | cons r rs ih =>
    rw [List.foldl_cons]
    exact ih (mergeStepRev_mono r h)

theorem foldl_mergeStepRev_cover (rs : List Range) (acc : List Range) :
    ∀ x ∈ rs, ∃ mr ∈ rs.foldl mergeStepRev acc, rangeContainsB mr x = true := by
  induction rs generalizing acc with
  | nil => intro x hx; simp at hx
  | cons r rs ih =>
    intro x hx
    rw [List.foldl_cons]
    rcases List.mem_cons.mp hx with heq | hmem
    · subst heq
      exact foldl_mergeStepRev_mono rs (mergeStepRev_new acc x)
    · exact ih (mergeStepRev acc r) x hmem

/-- Every input range is covered by some range of the merged output: the
merged list is a cover of the input list. -/
theorem merged_ranges_cover (rs : List Range) :
    ∀ r ∈ rs, ∃ mr ∈ merged_ranges rs, rangeContainsB mr r = true := by
  intro r hr
  unfold merged_ranges
  have hmem : r ∈ rs.insertionSort
      (fun a b => a.start_position.line ≤ b.start_position.line) :=
    ((List.perm_insertionSort _ rs).mem_iff).mpr hr
  obtain ⟨mr, hm, hc⟩ := foldl_mergeStepRev_cover _ [] r hmem
  exact ⟨mr, by simpa using hm, hc⟩

/-- **C5**: the merge procedure of `PyWorkspace.step` sorts the ranges by
start line and scans once, merging into the last accumulated range
exactly when the two intersect and starting a new accumulated range
otherwise; it produces an ordered cover (every input range is contained
in some output range), `(2,1)-(4,-1)` and `(4,1)-(6,-1)` merge into
`(2,1)-(6,-1)`, and `(1,1)-(1,-1)` and `(3,1)-(3,-1)` stay two separate
entries. -/
theorem claim_c5_range_merge :
    merged_ranges [⟨⟨2, 1⟩, ⟨4, -1⟩⟩, ⟨⟨4, 1⟩, ⟨6, -1⟩⟩] =
      [⟨⟨2, 1⟩, ⟨6, -1⟩⟩] ∧
    merged_ranges [⟨⟨1, 1⟩, ⟨1, -1⟩⟩, ⟨⟨3, 1⟩, ⟨3, -1⟩⟩] =
      [⟨⟨1, 1⟩, ⟨1, -1⟩⟩, ⟨⟨3, 1⟩, ⟨3, -1⟩⟩] ∧
    ∀ rs : List Range, ∀ r ∈ rs,
      ∃ mr ∈ merged_ranges rs, rangeContainsB mr r = true :=
  ⟨by decide, by decide, merged_ranges_cover⟩

/-- Witness for C5's cover component at the first example list. -/
theorem claim_c5_range_merge_witness :
    ∃ mr ∈ merged_ranges [⟨⟨2, 1⟩, ⟨4, -1⟩⟩, ⟨⟨4, 1⟩, ⟨6, -1⟩⟩],
      rangeContainsB mr ⟨⟨2, 1⟩, ⟨4, -1⟩⟩ = true :=
  claim_c5_range_merge.2.2 _ _ (by decide)

/-- **C6 counterexample**: for the concrete batch editing lines 1 and 20,
the merge produces two minimal ranges, but the observation slices only
the last one (`merged_ranges[-1]`), so it does not contain the slice of
every minimal merged range. -/
theorem claim_c6_cex :
    merged_ranges_of [⟨⟨⟨1, 1⟩, ⟨1, 1⟩⟩, ""⟩, ⟨⟨⟨20, 1⟩, ⟨20, 1⟩⟩, ""⟩] =
      [⟨⟨1, 1⟩, ⟨4, 1⟩⟩, ⟨⟨17, 1⟩, ⟨23, 1⟩⟩] ∧
    feedback_slices [⟨⟨⟨1, 1⟩, ⟨1, 1⟩⟩, ""⟩, ⟨⟨⟨20, 1⟩, ⟨20, 1⟩⟩, ""⟩] =
      [⟨⟨17, 1⟩, ⟨23, 1⟩⟩] ∧
    feedback_slices [⟨⟨⟨1, 1⟩, ⟨1, 1⟩⟩, ""⟩, ⟨⟨⟨20, 1⟩, ⟨20, 1⟩⟩, ""⟩] ≠
      merged_ranges_of [⟨⟨⟨1, 1⟩, ⟨1, 1⟩⟩, ""⟩, ⟨⟨⟨20, 1⟩, ⟨20, 1⟩⟩, ""⟩] :=
  ⟨by decide, by decide, by decide⟩

/-- **C6 (amended)**: on a successful `applyEdit`, the observation
contains the post-edit buffer slice of only the *last* minimal merged
range (each contributing range having been expanded by 3 lines of context
before its start and 3 lines plus the inserted text's line count after
its end, before merging); the merged list remains a cover of all
expanded edit ranges. -/
theorem claim_c6_feedback_last (edits : List SingleEditOperation)
    (h : merged_ranges_of edits ≠ []) :
    feedback_slices edits = [(merged_ranges_of edits).getLast h] ∧
    ∀ r ∈ content_ranges_of edits,
      ∃ mr ∈ merged_ranges_of edits, rangeContainsB mr r = true := by
  constructor
  · unfold feedback_slices
    rw [List.getLast?_eq_getLast _ h]
    rfl
  · intro r hr
    exact merged_ranges_cover _ r hr

/-- Witness for C6 (amended) at a one-edit batch on lines 5-6. -/
theorem claim_c6_feedback_last_witness :
    feedback_slices [⟨⟨⟨5, 1⟩, ⟨6, 1⟩⟩, "a"⟩] =
      [(merged_ranges_of [⟨⟨⟨5, 1⟩, ⟨6, 1⟩⟩, "a"⟩]).getLast (by decide)] ∧
    ∃ mr ∈ merged_ranges_of [⟨⟨⟨5, 1⟩, ⟨6, 1⟩⟩, "a"⟩],
      rangeContainsB mr ⟨⟨2, 1⟩, ⟨10, 1⟩⟩ = true :=
  ⟨(claim_c6_feedback_last _ (by decide)).1,
   (claim_c6_feedback_last _ (by decide)).2 ⟨⟨2, 1⟩, ⟨10, 1⟩⟩ (by decide)⟩

theorem take_sub_take_drop_restore {α : Type} (c : List α) (a b : Nat)
    (hab : a ≤ b) :
    c.take a ++ (c.drop a).take (b - a) ++ c.drop b = c := by
  rw [List.append_assoc]
  have h1 : (c.drop a).drop (b - a) = c.drop b := by
    rw [List.drop_drop]
    congr 1
    omega
  rw [← h1, List.take_append_drop, List.take_append_drop]

theorem spliceApplyAux_undo (es : List Edit) :
    ∀ (k j : Nat) (c : List Char),
      validEditsAux k (k + c.length) es = true →
      spliceApplyAux j (spliceApplyAux k c es) (computeUndoAux k j c es) = c := by
  induction es with
  | nil => intro k j c _; rfl
  | cons ed es ih =>
    intro k j c hv
    simp only [validEditsAux, Bool.and_eq_true, decide_eq_true_eq] at hv
    obtain ⟨⟨⟨hks, hse⟩, hen⟩, hrest⟩ := hv
    simp only [spliceApplyAux, computeUndoAux]
    have ha : (c.take (ed.s - k)).length = ed.s - k := by
      rw [List.length_take]
      omega
    have hs1 : j + (ed.s - k) - j = ed.s - k := by omega
    have hs2 : j + (ed.s - k) + ed.t.length - j = (ed.s - k) + ed.t.length := by
      omega
    rw [hs1, hs2]
    have hlen2 : (c.take (ed.s - k) ++ ed.t).length = (ed.s - k) + ed.t.length := by
      rw [List.length_append, ha]
    rw [show c.take (ed.s - k) ++ ed.t ++
          spliceApplyAux ed.e (c.drop (ed.e - k)) es =
        (c.take (ed.s - k) ++ ed.t) ++
          spliceApplyAux ed.e (c.drop (ed.e - k)) es from rfl]
    rw [List.drop_left' hlen2]
    have htake : ((c.take (ed.s - k) ++ ed.t) ++
        spliceApplyAux ed.e (c.drop (ed.e - k)) es).take (ed.s - k) =
        c.take (ed.s - k) := by
      rw [List.append_assoc, List.take_left' ha]
    rw [htake]
    have hbound : ed.e + (c.drop (ed.e - k)).length = k + c.length := by
      rw [List.length_drop]
      omega
    have hIH := ih ed.e (j + (ed.s - k) + ed.t.length) (c.drop (ed.e - k))
      (by rw [hbound]; exact hrest)
    rw [hIH]
    have hdiff : ed.e - ed.s = (ed.e - k) - (ed.s - k) := by omega
    rw [hdiff]
    exact take_sub_take_drop_restore c (ed.s - k) (ed.e - k) (by omega)

theorem validEditsAux_computeUndo (es : List Edit) :
    ∀ (k j : Nat) (c : List Char),
      validEditsAux k (k + c.length) es = true →
      validEditsAux j (j + (spliceApplyAux k c es).length)
        (computeUndoAux k j c es) = true := by
  induction es with
  | nil => intro k j c _; rfl
  | cons ed es ih =>
    intro k j c hv
    simp only [validEditsAux, Bool.and_eq_true, decide_eq_true_eq] at hv
    obtain ⟨⟨⟨hks, hse⟩, hen⟩, hrest⟩ := hv
    simp only [spliceApplyAux, computeUndoAux, validEditsAux,
      Bool.and_eq_true, decide_eq_true_eq]
    have ha : (c.take (ed.s - k)).length = ed.s - k := by
      rw [List.length_take]
      omega
    have hlen : (c.take (ed.s - k) ++ ed.t ++
        spliceApplyAux ed.e (c.drop (ed.e - k)) es).length =
        (ed.s - k) + ed.t.length +
          (spliceApplyAux ed.e (c.drop (ed.e - k)) es).length := by
      rw [List.length_append, List.length_append, ha]
    have hbound : ed.e + (c.drop (ed.e - k)).length = k + c.length := by
      rw [List.length_drop]
      omega
    have hIH := ih ed.e (j + (ed.s - k) + ed.t.length) (c.drop (ed.e - k))
      (by rw [hbound]; exact hrest)
    refine ⟨⟨⟨by omega, by omega⟩, by rw [hlen]; omega⟩, ?_⟩
    have hb2 : j + (c.take (ed.s - k) ++ ed.t ++
        spliceApplyAux ed.e (c.drop (ed.e - k)) es).length =
        j + (ed.s - k) + ed.t.length +
          (spliceApplyAux ed.e (c.drop (ed.e - k)) es).length := by
      rw [hlen]
      omega
    rw [hb2]
    exact hIH

/-- **C1**: for every document and every valid edit batch, applying the
batch with compute-undo enabled and then applying the returned inverse
edit list with compute-undo disabled, in the same call pattern, restores
byte-identical content and leaves the version exactly two ahead of the
start. -/
theorem claim_c1_roundtrip (d : PyDocument) (edits : List Edit)
    (h : validEdits d.content.length edits = true) :
    ∃ d1 undo, d.applyEdits edits true = .ok (d1, some undo) ∧
      ∃ d2, d1.applyEdits undo false = .ok (d2, none) ∧
        d2.content = d.content ∧ d2.version = d.version + 2 := by
  have h0 : validEditsAux 0 (0 + d.content.length) edits = true := by
    rw [Nat.zero_add]
    exact h
  have hundo : validEdits (spliceApply d.content edits).length
      (computeUndo d.content edits) = true := by
    unfold validEdits spliceApply computeUndo
    have := validEditsAux_computeUndo edits 0 0 d.content h0
    rwa [Nat.zero_add] at this
  refine ⟨⟨spliceApply d.content edits, d.version + 1⟩,
    computeUndo d.content edits, ?_, ?_⟩
  · unfold PyDocument.applyEdits
    rw [if_pos h]
    rfl
  · refine ⟨⟨spliceApply (spliceApply d.content edits)
        (computeUndo d.content edits), d.version + 1 + 1⟩, ?_, ?_, rfl⟩
    · unfold PyDocument.applyEdits
      rw [if_pos hundo]
      rfl
    · unfold spliceApply computeUndo
      exact spliceApplyAux_undo edits 0 0 d.content h0

/-- Witness for C1: the 4-character document `abcd` at version 0 with the
two-edit batch replacing `ab` by `x` and `d` by `y`. -/
theorem claim_c1_roundtrip_witness :
    ∃ d1 undo,
      (PyDocument.mk "abcd".toList 0).applyEdits
        [⟨0, 2, "x".toList⟩, ⟨3, 4, "y".toList⟩] true = .ok (d1, some undo) ∧
      ∃ d2, d1.applyEdits undo false = .ok (d2, none) ∧
        d2.content = (PyDocument.mk "abcd".toList 0).content ∧
        d2.version = (PyDocument.mk "abcd".toList 0).version + 2 :=
  claim_c1_roundtrip ⟨"abcd".toList, 0⟩
    [⟨0, 2, "x".toList⟩, ⟨3, 4, "y".toList⟩] (by decide)

end Ide4ai

